import Mathlib

/-!
Verification of the issue-history reconstruction and staleness-decision
engine of this repository: the stale-agent pipeline defined in
`src/.github/workflows/auto-assignment.js` (the document of that file that
implements the ADK stale agent), together with `errorResponse` from
`src/dev/samples/adk-stale-agent/utils.ts`.

The embedding is shallow:
- instants (JS `Date` values, ISO timestamp strings parsed by `parseISO`)
  are integers — milliseconds since epoch, compared by `getTime()`;
- fractional day quantities (luxon `diff(..., 'days').days`) are rationals;
- GraphQL nullability (`x?.y ?? null`) is `Option`;
- thrown exceptions are `Except`/sum values: the two awaited calls of
  `getIssueState` are passed in as `Except` results, and the `catch` block
  is the handler applied to the error arm;
- the loops of `buildHistoryTimeline` are structurally recursive
  functions, one per loop, composed in the same order as the source.

Line numbers in doc comments refer to
`src/.github/workflows/auto-assignment.js`.
-/

/-- An identity (GitHub login) is a string. -/
abbrev Identity := String

/-- Character-list test: does the first list occur as a leading segment of
the second? -/
def leadingMatch : List Char → List Char → Bool
  | [], _ => true
  | _ :: _, [] => false
  | a :: as, b :: bs => a == b && leadingMatch as bs

/-- Character-list test: does `needle` occur contiguously inside the list?
(`String.prototype.includes`). -/
def occursIn (needle : List Char) : List Char → Bool
  | [] => needle.isEmpty
  | c :: rest => leadingMatch needle (c :: rest) || occursIn needle rest

/-- Does the string `s` end with `post`? (`String.prototype.endsWith`). -/
def strEndsWith (s post : String) : Bool :=
  leadingMatch post.data.reverse s.data.reverse

/-- Embedded from auto-assignment.js:71-72: the fixed marker substring of
automation-authored silent-edit alert comments. -/
def BOT_ALERT_SIGNATURE : String :=
  "**Notification:** The author has updated the issue description"

/-- Embedded from auto-assignment.js:73: the automation's own identity. -/
def BOT_NAME : String := "adk-bot"

/-- The environment-supplied settings the engine reads
(`STALE_LABEL_NAME`, `STALE_HOURS_THRESHOLD`,
`CLOSE_HOURS_AFTER_STALE_THRESHOLD` from settings.ts). -/
structure Settings where
  staleLabelName : String
  staleHoursThreshold : ℚ
  closeHoursThreshold : ℚ

/-- Embedded from auto-assignment.js:78-88 (`HistoryEvent.type`): the tag
of a normalized history event, one of `'created' | 'commented' |
'edited_description' | 'renamed_title' | 'reopened'`. -/
inductive EventKind where
  | created
  | commented
  | edited_description
  | renamed_title
  | reopened
deriving DecidableEq, Repr

/-- Embedded from auto-assignment.js:78-88 (`HistoryEvent`): a normalized
history event `{type, actor: string | null, time: Date,
data: string | null}`. -/
structure HistoryEvent where
  type : EventKind
  actor : Option Identity
  time : Int
  data : Option String
deriving DecidableEq, Repr

/-- Embedded from auto-assignment.js:90-96 (`IssueState.last_action_role`):
`'author' | 'maintainer' | 'other_user'`. -/
inductive Role where
  | author
  | maintainer
  | other_user
deriving DecidableEq, Repr

/-- Embedded from auto-assignment.js:90-96 (`IssueState`): the replayed
last-state summary. -/
structure IssueState where
  last_action_role : Role
  last_activity_time : Int
  last_action_type : EventKind
  last_comment_text : Option String
  last_actor_name : Option Identity
deriving DecidableEq, Repr

/-- Embedded from auto-assignment.js:154-161: a raw comment node of the
GraphQL data (`author?.login`, `body`, `createdAt`, `lastEditedAt`), all
of which may be absent except `createdAt`. -/
structure RawComment where
  author : Option Identity
  body : Option String
  createdAt : Int
  lastEditedAt : Option Int
deriving DecidableEq, Repr

/-- Embedded from auto-assignment.js:162-167: a raw content-edit node
(`editor?.login`, `editedAt`). -/
structure RawEdit where
  editor : Option Identity
  editedAt : Int
deriving DecidableEq, Repr

/-- Embedded from auto-assignment.js:168-183: a raw timeline node, tagged
by `__typename` — `LabeledEvent` (with `label?.name`),
`RenamedTitleEvent`, or `ReopenedEvent`, each with `actor?.login` and
`createdAt`. -/
inductive RawTimelineItem where
  | labeled (label : Option String) (actor : Option Identity) (time : Int)
  | renamed (actor : Option Identity) (time : Int)
  | reopened (actor : Option Identity) (time : Int)
deriving DecidableEq, Repr

/-- Embedded from auto-assignment.js:151-184 (`IssueGraphQLData`) and
306-313 (`Issue`): the raw per-issue object of the combined GraphQL query.
List entries are optional because the loops skip null nodes
(`if (!c) continue`). -/
structure RawIssue where
  author : Option Identity
  createdAt : Int
  labels : List String
  comments : List (Option RawComment)
  userContentEdits : List (Option RawEdit)
  timelineItems : List (Option RawTimelineItem)

/-- Embedded from auto-assignment.js:219: the bot-alert recognition test
`cBody.includes(BOT_ALERT_SIGNATURE)`. -/
def containsSignature (body : String) : Bool :=
  occursIn BOT_ALERT_SIGNATURE.data body.data

/-- Embedded from auto-assignment.js:226 (also 243 and 268): the actor
admission test `actor && !actor.endsWith('[bot]') && actor !== BOT_NAME`.
A JS string is truthy iff it is non-empty, so a `null` or empty actor is
rejected. -/
def actorAllowed : Option Identity → Bool
  | none => false
  | some a => !(a == "") && !(strEndsWith a "[bot]") && !(a == BOT_NAME)

/-- Embedded from auto-assignment.js:202-208: the baseline `created` event
pushed first, at the issue's creation instant, with
`actor = data.author?.login ?? null`. -/
def createdEvent (raw : RawIssue) : HistoryEvent :=
  { type := .created, actor := raw.author, time := raw.createdAt,
    data := none }

/-- Embedded from auto-assignment.js:227-234: the `commented` event pushed
for an admitted comment — `time` is `parseISO(c.lastEditedAt)` when that
field is set, else the comment's creation instant; `data` is the comment
body (defaulted to the empty string by `c.body ?? ''`). -/
def commentEvent (c : RawComment) : HistoryEvent :=
  { type := .commented, actor := c.author,
    time := c.lastEditedAt.getD c.createdAt,
    data := some (c.body.getD "") }

/-- Embedded from auto-assignment.js:211-236: the comment loop of
`buildHistoryTimeline`.  Null nodes are skipped; a comment whose
(defaulted) body contains `BOT_ALERT_SIGNATURE` only raises
`lastBotAlertTime` to its creation instant
(`if (!lastBotAlertTime || cTime > lastBotAlertTime)`) and is dropped
(`continue`); otherwise an admitted actor yields a `commented` event and
an excluded actor yields nothing. -/
def processComments :
    List (Option RawComment) → Option Int → List HistoryEvent × Option Int
  | [], alert => ([], alert)
  | none :: rest, alert => processComments rest alert
  | some c :: rest, alert =>
    if containsSignature (c.body.getD "") then
      processComments rest
        (some (match alert with
               | none => c.createdAt
               | some m => max m c.createdAt))
    else if actorAllowed c.author then
      let r := processComments rest alert
      (commentEvent c :: r.1, r.2)
    else
      processComments rest alert

/-- Embedded from auto-assignment.js:239-251: the content-edit loop —
each non-null node with an admitted editor yields an
`edited_description` event at `parseISO(e.editedAt)` with `data: null`. -/
def editEvents (es : List (Option RawEdit)) : List HistoryEvent :=
  es.filterMap fun oe =>
    oe.bind fun e =>
      if actorAllowed e.editor then
        some { type := .edited_description, actor := e.editor,
               time := e.editedAt, data := none }
      else none

/-- Embedded from auto-assignment.js:254-279: the timeline-item loop.  A
`LabeledEvent` contributes its instant to `labelEvents` when
`t.label?.name === STALE_LABEL_NAME` and is always `continue`d (it never
becomes a history event); a rename or reopen with an admitted actor
yields a `renamed_title` or `reopened` event. -/
def processTimeline (stng : Settings) :
    List (Option RawTimelineItem) → List HistoryEvent × List Int
  | [] => ([], [])
  | none :: rest => processTimeline stng rest
  | some item :: rest =>
    let r := processTimeline stng rest
    match item with
    | .labeled label _ t =>
      if (match label with
          | some n => n == stng.staleLabelName
          | none => false) then (r.1, t :: r.2)
      else r
    | .renamed a t =>
      if actorAllowed a then
        ({ type := .renamed_title, actor := a, time := t,
           data := none } :: r.1, r.2)
      else r
    | .reopened a t =>
      if actorAllowed a then
        ({ type := .reopened, actor := a, time := t,
           data := none } :: r.1, r.2)
      else r

/-- The event list of `buildHistoryTimeline` as pushed, before the sort
(auto-assignment.js:202-279): the baseline `created` event, then comment
events, then edit events, then timeline events, in loop order. -/
def ingestionEvents (stng : Settings) (raw : RawIssue) : List HistoryEvent :=
  createdEvent raw ::
    ((processComments raw.comments none).1 ++
      editEvents raw.userContentEdits ++
      (processTimeline stng raw.timelineItems).1)

/-- One step of a stable ascending insertion by `time`: the inserted event
goes before the first strictly later event, hence before any event with
an equal instant (the inserted event is the earlier one in push order). -/
def insertEvent (e : HistoryEvent) : List HistoryEvent → List HistoryEvent
  | [] => [e]
  | x :: xs =>
    if x.time < e.time then x :: insertEvent e xs
    else e :: x :: xs

/-- Embedded from auto-assignment.js:282:
`history.sort((a, b) => a.time.getTime() - b.time.getTime())` — a stable
ascending sort by instant (`Array.prototype.sort` is stable), realized as
a stable insertion sort. -/
def sortEvents (l : List HistoryEvent) : List HistoryEvent :=
  l.foldr insertEvent []

/-- Embedded from auto-assignment.js:194-285 (`buildHistoryTimeline`):
normalizes the raw GraphQL data into
`[history, labelEvents, lastBotAlertTime]` — the chronologically sorted
event list, the stale-label application instants, and the most recent
bot-alert instant (or null). -/
def buildHistoryTimeline (stng : Settings) (raw : RawIssue) :
    List HistoryEvent × List Int × Option Int :=
  let c := processComments raw.comments none
  let t := processTimeline stng raw.timelineItems
  (sortEvents (ingestionEvents stng raw), t.2, c.2)

/-- Embedded from auto-assignment.js:121-127: the per-event role
determination — `'author'` if `actor === issueAuthor`, else
`'maintainer'` if `actor && maintainers.includes(actor)` (truthiness
rejects a null or empty actor), else `'other_user'`. -/
def classifyRole (maintainers : List Identity) (issueAuthor : Identity) :
    Option Identity → Role
  | none => .other_user
  | some a =>
    if a = issueAuthor then .author
    else if a ≠ "" ∧ a ∈ maintainers then .maintainer
    else .other_user

/-- Embedded from auto-assignment.js:117-139: one iteration of the replay
loop — every state variable is overwritten by the current event, and
`last_comment_text` is `event.data ?? null` for a `commented` event and
`null` for every other kind. -/
def applyEvent (maintainers : List Identity) (issueAuthor : Identity)
    (_s : IssueState) (e : HistoryEvent) : IssueState :=
  { last_action_role := classifyRole maintainers issueAuthor e.actor,
    last_activity_time := e.time,
    last_action_type := e.type,
    last_comment_text := if e.type = .commented then e.data else none,
    last_actor_name := e.actor }

/-- Embedded from auto-assignment.js:106-149 (`replayHistoryToFindState`):
a single left-to-right pass over the sorted events.  The initial values
(lines 111-115) are role `'author'`, `history[0]?.time ?? new Date(0)`,
type `'created'`, null comment text, and the issue author as actor. -/
def replayHistoryToFindState (history : List HistoryEvent)
    (maintainers : List Identity) (issueAuthor : Identity) : IssueState :=
  let init : IssueState :=
    { last_action_role := .author,
      last_activity_time := ((history.head?).map (·.time)).getD 0,
      last_action_type := .created,
      last_comment_text := none,
      last_actor_name := some issueAuthor }
  history.foldl (applyEvent maintainers issueAuthor) init

/-- Milliseconds in one day (luxon's `diff(..., 'days')` unit). -/
def msPerDay : ℚ := 86400000

/-- Difference of two instants in fractional days (not rounded):
`currentTime.diff(DateTime.fromJSDate(t), 'days').days`. -/
def daysBetween (now t : Int) : ℚ := ((now - t : Int) : ℚ) / msPerDay

/-- Maximum of a list of instants (`none` on the empty list) —
`Math.max(...labelEvents.map((d) => d.getTime()))` guarded by
`labelEvents.length`. -/
def maxTime : List Int → Option Int
  | [] => none
  | t :: ts =>
    some (match maxTime ts with
          | none => t
          | some m => max t m)

/-- Embedded from auto-assignment.js:506-521: the success payload of
`getIssueState` (its `status: 'success'` envelope field is carried by
`ToolResult.success`). -/
structure StalenessVerdict where
  last_action_role : Role
  last_action_type : EventKind
  last_actor_name : Option Identity
  maintainer_alert_needed : Bool
  is_stale : Bool
  days_since_activity : ℚ
  days_since_stale_label : ℚ
  last_comment_text : Option String
  current_labels : List String
  stale_threshold_days : ℚ
  close_threshold_days : ℚ
  maintainers : List Identity
  issue_author : Identity
deriving DecidableEq, Repr

/-- Embedded from auto-assignment.js:485-499: the silent-edit alert logic —
the flag becomes true iff the last action role is `'author'` or
`'other_user'`, the last action type is `'edited_description'`, and it is
not the case that `lastBotAlertTime && lastBotAlertTime >
state.last_activity_time`. -/
def alertNeeded (state : IssueState) (lastBotAlertTime : Option Int) :
    Bool :=
  (match state.last_action_role with
   | .author => true
   | .other_user => true
   | .maintainer => false)
  && (decide (state.last_action_type = .edited_description))
  && !(match lastBotAlertTime with
       | some b => state.last_activity_time < b
       | none => false)

/-- Embedded from auto-assignment.js:466-521: the metric computation and
verdict assembly inside `getIssueState` — idle days since the last
activity, `isStale = labelsList.includes(STALE_LABEL_NAME)`,
`daysSinceStaleLabel` from the latest label application when
`isStale && labelEvents.length` (else `0.0`), the silent-edit alert flag,
and the pass-through fields. -/
def evaluateState (stng : Settings) (state : IssueState)
    (labelEvents : List Int) (lastBotAlertTime : Option Int)
    (labelsList : List String) (maintainers : List Identity)
    (issueAuthor : Identity) (now : Int) : StalenessVerdict :=
  let isStale := decide (stng.staleLabelName ∈ labelsList)
  { last_action_role := state.last_action_role,
    last_action_type := state.last_action_type,
    last_actor_name := state.last_actor_name,
    maintainer_alert_needed := alertNeeded state lastBotAlertTime,
    is_stale := isStale,
    days_since_activity := daysBetween now state.last_activity_time,
    days_since_stale_label :=
      match maxTime labelEvents with
      | some m => if isStale then daysBetween now m else 0
      | none => 0,
    last_comment_text := state.last_comment_text,
    current_labels := labelsList,
    stale_threshold_days := stng.staleHoursThreshold / 24,
    close_threshold_days := stng.closeHoursThreshold / 24,
    maintainers := maintainers,
    issue_author := issueAuthor }

/-- A `{status, message}` envelope (the shape of error tool results). -/
structure StatusMessage where
  status : String
  message : String
deriving DecidableEq, Repr

/-- Embedded from `src/dev/samples/adk-stale-agent/utils.ts`
(`errorResponse`): builds the structured error envelope
`{status: 'error', message}`. -/
def errorResponse (errorMessage : String) : StatusMessage :=
  { status := "error", message := errorMessage }

/-- A thrown JS exception as seen by `getIssueState`'s catch: either a
`RequestException` (thrown by `fetchGraphqlData` and the transport
helpers) or any other `Error`, carrying its message. -/
inductive JsException where
  | requestException (message : String)
  | jsError (message : String)
deriving DecidableEq, Repr

/-- Embedded from auto-assignment.js:522-531: the catch block of
`getIssueState` — a `RequestException` becomes
`errorResponse('Network Error: ...')` and any other error becomes
`errorResponse('Analysis Error: ...')`; nothing is rethrown. -/
def catchClause : JsException → StatusMessage
  | .requestException m => errorResponse ("Network Error: " ++ m)
  | .jsError m => errorResponse ("Analysis Error: " ++ m)

/-- Embedded from auto-assignment.js:418-442 (`getCachedMaintainers`):
returns the cache when populated; otherwise returns the fetched
collaborator logins, or — when the fetch fails — throws a plain
`Error('Maintainer verification failed. Processing aborted.')`,
represented as the error arm. -/
def getCachedMaintainers (maintainersCache : Option (List Identity))
    (fetched : Except String (List Identity)) :
    Except JsException (List Identity) :=
  match maintainersCache with
  | some cached => .ok cached
  | none =>
    match fetched with
    | .ok logins => .ok logins
    | .error _ =>
      .error (.jsError "Maintainer verification failed. Processing aborted.")

/-- Embedded from auto-assignment.js:332-404 (`fetchGraphqlData`): given
the GraphQL response's error list and optional issue object, throws a
`RequestException` on structured errors or a missing issue, else returns
the issue. -/
def fetchGraphqlData (item_number : Int) (issue : Option RawIssue)
    (errors : List String) : Except JsException RawIssue :=
  match errors with
  | err :: _ => .error (.requestException ("GraphQL Error: " ++ err))
  | [] =>
    match issue with
    | some i => .ok i
    | none =>
      .error (.requestException
        ("Issue #" ++ toString item_number ++ " not found."))

/-- What `getIssueState` returns to the tool layer: the success verdict or
a structured error envelope.  It never throws: the whole body is inside
`try`, and the catch returns. -/
inductive ToolResult where
  | success (v : StalenessVerdict)
  | failure (e : StatusMessage)
deriving DecidableEq, Repr

/-- Embedded from auto-assignment.js:447-532 (`getIssueState`): the
evaluator entry point.  The two awaited calls inside the `try` —
`getCachedMaintainers()` and `fetchGraphqlData(item_number)` — are passed
in as `Except` results; an exception from either one reaches the same
catch block and is returned as an error envelope (the maintainer-fetch
`Error` included).  On success the issue author defaults to `'unknown'`
(line 455) and the normalize → replay → evaluate pipeline runs. -/
def getIssueState (stng : Settings)
    (maintainersResult : Except JsException (List Identity))
    (fetchResult : Except JsException RawIssue) (now : Int) : ToolResult :=
  match maintainersResult with
  | .error e => .failure (catchClause e)
  | .ok maintainers =>
    match fetchResult with
    | .error e => .failure (catchClause e)
    | .ok rawData =>
      let issueAuthor := rawData.author.getD "unknown"
      let labelsList := rawData.labels
      let b := buildHistoryTimeline stng rawData
      let state := replayHistoryToFindState b.1 maintainers issueAuthor
      .success (evaluateState stng state b.2.1 b.2.2 labelsList maintainers
        issueAuthor now)

/-! ### Helper lemmas about the stable sort -/

/-- Inserting an event produces a permutation of consing it. -/
theorem insertEvent_perm (e : HistoryEvent) (l : List HistoryEvent) :
    List.Perm (insertEvent e l) (e :: l) := by
  induction l with
  | nil => simp [insertEvent]
  | cons x xs ih =>
    by_cases h : x.time < e.time
    · simp only [insertEvent, if_pos h]
      exact (ih.cons x).trans (List.Perm.swap e x xs)
    · simp [insertEvent, if_neg h]

/-- The stable sort permutes its input. -/
theorem sortEvents_perm (l : List HistoryEvent) :
    List.Perm (sortEvents l) l := by
  induction l with
  | nil => exact List.Perm.refl []
  | cons x xs ih =>
    exact (insertEvent_perm x (sortEvents xs)).trans (ih.cons x)

/-- Membership is preserved by the stable sort. -/
theorem mem_sortEvents {a : HistoryEvent} {l : List HistoryEvent} :
    a ∈ sortEvents l ↔ a ∈ l :=
  (sortEvents_perm l).mem_iff

/-- Inserting into a list sorted by instant keeps it sorted. -/
theorem insertEvent_pairwise {e : HistoryEvent} {l : List HistoryEvent}
    (h : l.Pairwise (fun a b => a.time ≤ b.time)) :
    (insertEvent e l).Pairwise (fun a b => a.time ≤ b.time) := by
  induction l with
  | nil => simp [insertEvent]
  | cons x xs ih =>
    rcases List.pairwise_cons.mp h with ⟨hx, hxs⟩
    by_cases hlt : x.time < e.time
    · simp only [insertEvent, if_pos hlt]
      refine List.pairwise_cons.mpr ⟨?_, ih hxs⟩
      intro b hb
      rcases List.mem_cons.mp ((insertEvent_perm e xs).mem_iff.mp hb) with
        hb | hb
      · exact hb ▸ le_of_lt hlt
      · exact hx b hb
    · simp only [insertEvent, if_neg hlt]
      refine List.pairwise_cons.mpr ⟨?_, h⟩
      intro b hb
      rcases List.mem_cons.mp hb with hb | hb
      · exact hb ▸ le_of_not_lt hlt
      · exact le_trans (le_of_not_lt hlt) (hx b hb)

/-- The stable sort yields non-decreasing instants. -/
theorem sortEvents_pairwise (l : List HistoryEvent) :
    (sortEvents l).Pairwise (fun a b => a.time ≤ b.time) := by
  induction l with
  | nil => exact List.Pairwise.nil
  | cons x xs ih => exact insertEvent_pairwise ih

/-- Filtering at a fixed instant commutes with insertion: the inserted
event lands in front of the events sharing its instant. -/
theorem filter_insertEvent (t : Int) (e : HistoryEvent)
    (l : List HistoryEvent) :
    (insertEvent e l).filter (fun x => x.time == t) =
      if e.time = t then
        e :: l.filter (fun x => x.time == t)
      else l.filter (fun x => x.time == t) := by
  induction l with
  | nil => by_cases h : e.time = t <;> simp [insertEvent, h]
  | cons x xs ih =>
    by_cases hlt : x.time < e.time
    · simp only [insertEvent, if_pos hlt]
      by_cases hxt : x.time = t
      · have het : ¬ e.time = t := by omega
        simp [List.filter_cons, hxt, het, ih]
      · simp [List.filter_cons, hxt, ih]
    · simp only [insertEvent, if_neg hlt]
      by_cases het : e.time = t <;>
        simp [List.filter_cons, het]

/-- Stability of the sort: for every instant, the events carrying that
instant appear in the sorted history in their push order. -/
theorem sortEvents_filter (t : Int) (l : List HistoryEvent) :
    (sortEvents l).filter (fun x => x.time == t) =
      l.filter (fun x => x.time == t) := by
  induction l with
  | nil => rfl
  | cons x xs ih =>
    show (insertEvent x (sortEvents xs)).filter _ = _
    rw [filter_insertEvent t x (sortEvents xs), List.filter_cons]
    by_cases h : x.time = t <;> simp [h, ih]

/-! ### Helper lemmas about the comment loop -/

/-- The creation instants of the signature-bearing comments, in order. -/
def sigTimes (cs : List (Option RawComment)) : List Int :=
  cs.filterMap fun oc =>
    oc.bind fun c =>
      if containsSignature (c.body.getD "") then some c.createdAt else none

/-- Maximum of two optional instants (`none` is neutral). -/
def optMax : Option Int → Option Int → Option Int
  | none, y => y
  | some x, none => some x
  | some x, some y => some (max x y)

theorem optMax_assoc (a b c : Option Int) :
    optMax (optMax a b) c = optMax a (optMax b c) := by
  cases a <;> cases b <;> cases c <;> simp [optMax, max_assoc]

theorem sigTimes_cons_some (c : RawComment)
    (rest : List (Option RawComment)) :
    sigTimes (some c :: rest) =
      if containsSignature (c.body.getD "") then
        c.createdAt :: sigTimes rest
      else sigTimes rest := by
  by_cases h : containsSignature (c.body.getD "") <;>
    simp [sigTimes, List.filterMap_cons, h]

theorem maxTime_cons (t : Int) (ts : List Int) :
    maxTime (t :: ts) = optMax (some t) (maxTime ts) := by
  cases h : maxTime ts <;> simp [maxTime, h, optMax]

/-- The bot-alert accumulator computed by the comment loop is the maximum
of the incoming accumulator and the signature instants. -/
theorem processComments_snd (cs : List (Option RawComment))
    (alert : Option Int) :
    (processComments cs alert).2 =
      optMax alert (maxTime (sigTimes cs)) := by
  induction cs generalizing alert with
  | nil => cases alert <;> simp [processComments, sigTimes, maxTime, optMax]
  | cons oc rest ih =>
    cases oc with
    | none => simpa [processComments, sigTimes] using ih alert
    | some c =>
      by_cases hsig : containsSignature (c.body.getD "")
      · have hupd :
            (some (match alert with
                   | none => c.createdAt
                   | some m => max m c.createdAt)) =
              optMax alert (some c.createdAt) := by
          cases alert <;> simp [optMax]
        rw [sigTimes_cons_some, if_pos hsig, maxTime_cons]
        simp only [processComments, if_pos hsig]
        rw [ih, hupd, optMax_assoc]
      · rw [sigTimes_cons_some, if_neg hsig]
        by_cases hact : actorAllowed c.author
        · simp only [processComments, if_neg hsig, if_pos hact]
          exact ih alert
        · simp only [processComments, if_neg hsig, if_neg hact]
          exact ih alert

/-- `maxTime` is `none` exactly on the empty list. -/
theorem maxTime_eq_none_iff (l : List Int) : maxTime l = none ↔ l = [] := by
  cases l <;> simp [maxTime]

/-- `maxTime` returns a member that dominates every member. -/
theorem maxTime_spec (l : List Int) (m : Int) (h : maxTime l = some m) :
    m ∈ l ∧ ∀ t ∈ l, t ≤ m := by
  induction l generalizing m with
  | nil => simp [maxTime] at h
  | cons x xs ih =>
    cases hxs : maxTime xs with
    | none =>
      rw [maxTime_cons, hxs] at h
      have hx : m = x := by simpa [optMax] using h.symm
      have : xs = [] := (maxTime_eq_none_iff xs).mp hxs
      subst this; subst hx
      simp
    | some k =>
      rw [maxTime_cons, hxs] at h
      have hm : m = max x k := by simpa [optMax] using h.symm
      rcases ih k hxs with ⟨hkmem, hkle⟩
      subst hm
      constructor
      · rcases max_cases x k with ⟨heq, _⟩ | ⟨heq, _⟩
        · rw [heq]; exact List.mem_cons_self x xs
        · rw [heq]; exact List.mem_cons_of_mem x hkmem
      · intro t ht
        rcases List.mem_cons.mp ht with ht | ht
        · simp [ht, le_max_left]
        · exact le_trans (hkle t ht) (le_max_right x k)

/-! ### Membership characterization of the normalized events -/

/-- The events emitted by the comment loop are exactly the comment events
of the admitted comments (independently of the alert accumulator). -/
theorem processComments_fst_mem (cs : List (Option RawComment))
    (alert : Option Int) (e : HistoryEvent) :
    e ∈ (processComments cs alert).1 ↔
      ∃ c, some c ∈ cs ∧ containsSignature (c.body.getD "") = false ∧
        actorAllowed c.author = true ∧ e = commentEvent c := by
  induction cs generalizing alert with
  | nil => simp [processComments]
  | cons oc rest ih =>
    cases oc with
    | none =>
      simp only [processComments]
      rw [ih alert]
      constructor
      · rintro ⟨c, hc, h1, h2, h3⟩
        exact ⟨c, List.mem_cons_of_mem _ hc, h1, h2, h3⟩
      · rintro ⟨c, hc, h1, h2, h3⟩
        rcases List.mem_cons.mp hc with hc | hc
        · exact absurd hc (by simp)
        · exact ⟨c, hc, h1, h2, h3⟩
    | some c₀ =>
      by_cases hsig : containsSignature (c₀.body.getD "")
      · simp only [processComments, if_pos hsig]
        rw [ih]
        constructor
        · rintro ⟨c, hc, h1, h2, h3⟩
          exact ⟨c, List.mem_cons_of_mem _ hc, h1, h2, h3⟩
        · rintro ⟨c, hc, h1, h2, h3⟩
          rcases List.mem_cons.mp hc with hc | hc
          · have : c = c₀ := by simpa using hc
            subst this
            rw [hsig] at h1
            exact absurd h1 (by simp)
          · exact ⟨c, hc, h1, h2, h3⟩
      · by_cases hact : actorAllowed c₀.author
        · simp only [processComments, if_neg hsig, if_pos hact,
            List.mem_cons]
          rw [ih alert]
          constructor
          · rintro (he | ⟨c, hc, h1, h2, h3⟩)
            · exact ⟨c₀, Or.inl rfl, by simp [hsig], hact, he⟩
            · exact ⟨c, Or.inr hc, h1, h2, h3⟩
          · rintro ⟨c, hc, h1, h2, h3⟩
            rcases hc with hc | hc
            · have : c = c₀ := by simpa using hc
              subst this
              exact Or.inl h3
            · exact Or.inr ⟨c, hc, h1, h2, h3⟩
        · simp only [processComments, if_neg hsig, if_neg hact]
          rw [ih alert]
          constructor
          · rintro ⟨c, hc, h1, h2, h3⟩
            exact ⟨c, List.mem_cons_of_mem _ hc, h1, h2, h3⟩
          · rintro ⟨c, hc, h1, h2, h3⟩
            rcases List.mem_cons.mp hc with hc | hc
            · have : c = c₀ := by simpa using hc
              subst this
              rw [h2] at hact
              exact absurd rfl hact
            · exact ⟨c, hc, h1, h2, h3⟩

/-- Every event emitted by the content-edit loop is an
`edited_description` by an admitted actor, with no payload. -/
theorem editEvents_mem (es : List (Option RawEdit)) (e : HistoryEvent)
    (h : e ∈ editEvents es) :
    e.type = .edited_description ∧ actorAllowed e.actor = true ∧
      e.data = none := by
  simp only [editEvents, List.mem_filterMap] at h
  rcases h with ⟨oe, _, hoe⟩
  cases oe with
  | none => exact absurd hoe (by simp)
  | some r =>
    rw [Option.some_bind] at hoe
    by_cases hact : actorAllowed r.editor
    · rw [if_pos hact] at hoe
      cases hoe
      exact ⟨rfl, hact, rfl⟩
    · rw [if_neg hact] at hoe
      exact absurd hoe (by simp)

/-- Every event emitted by the timeline loop is a rename or reopen by an
admitted actor, with no payload. -/
theorem processTimeline_fst_mem (stng : Settings)
    (items : List (Option RawTimelineItem)) (e : HistoryEvent)
    (h : e ∈ (processTimeline stng items).1) :
    (e.type = .renamed_title ∨ e.type = .reopened) ∧
      actorAllowed e.actor = true ∧ e.data = none := by
  induction items with
  | nil => simp [processTimeline] at h
  | cons oi rest ih =>
    cases oi with
    | none => exact ih h
    | some item =>
      cases item with
      | labeled label a t =>
        by_cases hn : (match label with
                       | some n => n == stng.staleLabelName
                       | none => false)
        · simp only [processTimeline, hn, if_pos] at h
          exact ih h
        · simp only [processTimeline] at h
          rw [if_neg hn] at h
          exact ih h
      | renamed a t =>
        by_cases hact : actorAllowed a
        · simp only [processTimeline, if_pos hact] at h
          rcases List.mem_cons.mp h with he | he
          · subst he
            exact ⟨Or.inl rfl, hact, rfl⟩
          · exact ih he
        · simp only [processTimeline, if_neg hact] at h
          exact ih h
      | reopened a t =>
        by_cases hact : actorAllowed a
        · simp only [processTimeline, if_pos hact] at h
          rcases List.mem_cons.mp h with he | he
          · subst he
            exact ⟨Or.inr rfl, hact, rfl⟩
          · exact ih he
        · simp only [processTimeline, if_neg hact] at h
          exact ih h

/-- Unfolding membership in the pre-sort, push-ordered event list. -/
theorem mem_ingestionEvents (stng : Settings) (raw : RawIssue)
    (e : HistoryEvent) :
    e ∈ ingestionEvents stng raw ↔
      e = createdEvent raw ∨
        e ∈ (processComments raw.comments none).1 ∨
        e ∈ editEvents raw.userContentEdits ∨
        e ∈ (processTimeline stng raw.timelineItems).1 := by
  simp [ingestionEvents]

/-- Invariant of built histories: every `commented` event carries a
payload, namely the (defaulted) body of an admitted comment, free of the
bot-alert signature. -/
theorem history_commented_data (stng : Settings) (raw : RawIssue)
    (e : HistoryEvent) (hmem : e ∈ (buildHistoryTimeline stng raw).1)
    (hkind : e.type = .commented) :
    ∃ b, e.data = some b ∧ containsSignature b = false := by
  have h : e ∈ ingestionEvents stng raw := mem_sortEvents.mp hmem
  rcases (mem_ingestionEvents stng raw e).mp h with h | h | h | h
  · rw [h] at hkind
    exact absurd hkind (by simp [createdEvent])
  · rcases (processComments_fst_mem raw.comments none e).mp h with
      ⟨c, _, hsig, _, hc⟩
    exact ⟨c.body.getD "", by rw [hc]; rfl, hsig⟩
  · rcases editEvents_mem raw.userContentEdits e h with ⟨hk, _, _⟩
    rw [hk] at hkind
    exact absurd hkind (by simp)
  · rcases processTimeline_fst_mem stng raw.timelineItems e h with
      ⟨hk, _, _⟩
    rcases hk with hk | hk <;> rw [hk] at hkind <;>
      exact absurd hkind (by simp)

/-- Invariant of built histories: every non-`created` event has an
admitted actor. -/
theorem history_actor_admitted (stng : Settings) (raw : RawIssue)
    (e : HistoryEvent) (hmem : e ∈ (buildHistoryTimeline stng raw).1)
    (hkind : e.type ≠ .created) :
    actorAllowed e.actor = true := by
  have h : e ∈ ingestionEvents stng raw := mem_sortEvents.mp hmem
  rcases (mem_ingestionEvents stng raw e).mp h with h | h | h | h
  · rw [h] at hkind
    exact absurd rfl hkind
  · rcases (processComments_fst_mem raw.comments none e).mp h with
      ⟨c, _, _, hact, hc⟩
    rw [hc]
    exact hact
  · exact (editEvents_mem raw.userContentEdits e h).2.1
  · exact (processTimeline_fst_mem stng raw.timelineItems e h).2.1

/-- Invariant of built histories: the only `created` event is the baseline
one pushed at lines 202-208. -/
theorem history_created_unique (stng : Settings) (raw : RawIssue)
    (e : HistoryEvent) (hmem : e ∈ (buildHistoryTimeline stng raw).1)
    (hkind : e.type = .created) :
    e = createdEvent raw := by
  have h : e ∈ ingestionEvents stng raw := mem_sortEvents.mp hmem
  rcases (mem_ingestionEvents stng raw e).mp h with h | h | h | h
  · exact h
  · rcases (processComments_fst_mem raw.comments none e).mp h with
      ⟨c, _, _, _, hc⟩
    rw [hc] at hkind
    exact absurd hkind (by simp [commentEvent])
  · rcases editEvents_mem raw.userContentEdits e h with ⟨hk, _, _⟩
    rw [hk] at hkind
    exact absurd hkind (by simp)
  · rcases processTimeline_fst_mem stng raw.timelineItems e h with
      ⟨hk, _, _⟩
    rcases hk with hk | hk <;> rw [hk] at hkind <;>
      exact absurd hkind (by simp)

/-- An admitted actor is a present, non-empty identity, distinct from the
automation's own and without the "[bot]" suffix. -/
theorem actorAllowed_spec (a : Option Identity)
    (h : actorAllowed a = true) :
    ∃ s, a = some s ∧ s ≠ "" ∧ strEndsWith s "[bot]" = false ∧
      s ≠ BOT_NAME := by
  cases a with
  | none => simp [actorAllowed] at h
  | some s =>
    simp only [actorAllowed, Bool.and_eq_true, Bool.not_eq_true'] at h
    refine ⟨s, rfl, ?_, h.1.2, ?_⟩
    · intro hs
      rw [hs] at h
      simp at h
    · intro hs
      rw [hs] at h
      simp at h

/-- The final values of a replay whose history ends in event `e` are
exactly the values written by `e` (whatever the initial values were). -/
theorem replay_append (hs : List HistoryEvent) (e : HistoryEvent)
    (maintainers : List Identity) (issueAuthor : Identity) :
    ∃ s₀, replayHistoryToFindState (hs ++ [e]) maintainers issueAuthor =
      applyEvent maintainers issueAuthor s₀ e := by
  refine ⟨List.foldl (applyEvent maintainers issueAuthor)
    { last_action_role := .author,
      last_activity_time := (((hs ++ [e]).head?).map (·.time)).getD 0,
      last_action_type := .created,
      last_comment_text := none,
      last_actor_name := some issueAuthor } hs, ?_⟩
  simp [replayHistoryToFindState, List.foldl_append]

/-! ### Fixtures for witnesses and counterexamples -/

/-- Fixture: environment settings used to instantiate claims on concrete
data. -/
def wStng : Settings :=
  { staleLabelName := "stale", staleHoursThreshold := 168,
    closeHoursThreshold := 168 }

/-- Fixture: a plain human comment. -/
def wComment : RawComment :=
  { author := some "bob", body := some "hi", createdAt := 5,
    lastEditedAt := none }

/-- Fixture: a raw issue with one plain comment. -/
def wRaw : RawIssue :=
  { author := some "alice", createdAt := 0, labels := [],
    comments := [some wComment], userContentEdits := [],
    timelineItems := [] }

/-- Fixture: a comment whose actor is present but is the empty string
(falsy in JS). -/
def cEmptyActor : RawComment :=
  { author := some "", body := some "hello", createdAt := 7,
    lastEditedAt := none }

/-- Fixture: a raw issue whose only comment has the empty-string actor. -/
def rawEmptyActor : RawIssue :=
  { author := some "alice", createdAt := 0, labels := [],
    comments := [some cEmptyActor], userContentEdits := [],
    timelineItems := [] }

/-! ### Claim theorems -/

/-- C1: For every timeline the builder passes to the History Replayer, the
replayed `last_activity_time` equals the timestamp of the chronologically
last event, and `last_comment_text` is non-null iff that last event's kind
is `commented` (any non-comment final event clears it to null). -/
theorem C1_replay_last_event (stng : Settings) (raw : RawIssue)
    (maintainers : List Identity) (issueAuthor : Identity)
    (hs : List HistoryEvent) (e : HistoryEvent)
    (hdec : (buildHistoryTimeline stng raw).1 = hs ++ [e]) :
    (replayHistoryToFindState (buildHistoryTimeline stng raw).1 maintainers
        issueAuthor).last_activity_time = e.time ∧
    ((replayHistoryToFindState (buildHistoryTimeline stng raw).1 maintainers
        issueAuthor).last_comment_text ≠ none ↔
      e.type = EventKind.commented) := by
  have hmem : e ∈ (buildHistoryTimeline stng raw).1 := by
    rw [hdec]
    exact List.mem_append_right hs (List.mem_singleton.mpr rfl)
  obtain ⟨s₀, hrep⟩ := replay_append hs e maintainers issueAuthor
  rw [hdec, hrep]
  constructor
  · rfl
  · show (if e.type = EventKind.commented then e.data else none) ≠ none
      ↔ e.type = EventKind.commented
    by_cases hk : e.type = EventKind.commented
    · rcases history_commented_data stng raw e hmem hk with ⟨b, hb, _⟩
      simp [hk, hb]
    · simp [hk]

theorem C1_replay_last_event_witness :
    (replayHistoryToFindState (buildHistoryTimeline wStng wRaw).1 ["carol"]
        "alice").last_activity_time = (commentEvent wComment).time ∧
    ((replayHistoryToFindState (buildHistoryTimeline wStng wRaw).1 ["carol"]
        "alice").last_comment_text ≠ none ↔
      (commentEvent wComment).type = EventKind.commented) :=
  C1_replay_last_event wStng wRaw ["carol"] "alice" [createdEvent wRaw]
    (commentEvent wComment) (by decide)

/-- C2: The evaluator sets the maintainer-alert flag to true iff the last
action's role is `author` or `other_user`, its type is
`edited_description`, and no bot-alert instant exists strictly after the
last activity time. -/
theorem C2_alert_flag_iff (stng : Settings) (state : IssueState)
    (labelEvents : List Int) (lastBotAlertTime : Option Int)
    (labelsList : List String) (maintainers : List Identity)
    (issueAuthor : Identity) (now : Int) :
    (evaluateState stng state labelEvents lastBotAlertTime labelsList
        maintainers issueAuthor now).maintainer_alert_needed = true ↔
      ((state.last_action_role = Role.author ∨
          state.last_action_role = Role.other_user) ∧
        state.last_action_type = EventKind.edited_description ∧
        ¬ (∃ b, lastBotAlertTime = some b ∧
          state.last_activity_time < b)) := by
  show alertNeeded state lastBotAlertTime = true ↔ _
  cases hrole : state.last_action_role <;>
    cases hb : lastBotAlertTime <;>
    simp [alertNeeded, hrole, hb]

/-- C3: A signature-bearing comment never yields a `commented` event (every
`commented` event's payload is signature-free), and the returned
`lastBotAlertTime` is exactly the maximum creation instant over the
signature-bearing comments — `none` iff there are none, and otherwise a
member of their creation instants dominating all of them. -/
theorem C3_bot_alert_exclusion (stng : Settings) (raw : RawIssue) :
    (∀ e ∈ (buildHistoryTimeline stng raw).1,
      e.type = EventKind.commented →
        ∃ b, e.data = some b ∧ containsSignature b = false) ∧
    ((buildHistoryTimeline stng raw).2.2 = none ↔
      sigTimes raw.comments = []) ∧
    (∀ m, (buildHistoryTimeline stng raw).2.2 = some m →
      m ∈ sigTimes raw.comments ∧
        ∀ t ∈ sigTimes raw.comments, t ≤ m) := by
  have halert : (buildHistoryTimeline stng raw).2.2 =
      maxTime (sigTimes raw.comments) := by
    show (processComments raw.comments none).2 = _
    rw [processComments_snd]
    rfl
  refine ⟨?_, ?_, ?_⟩
  · intro e he hk
    exact history_commented_data stng raw e he hk
  · rw [halert, maxTime_eq_none_iff]
  · intro m hm
    rw [halert] at hm
    exact maxTime_spec _ m hm

/-- C4: The claim asserts that a maintainer-set fetch failure propagates
out of `getIssueState`; in the code it does not.  `getCachedMaintainers`
throws `Error('Maintainer verification failed. Processing aborted.')`
(line 440), the call sits inside `getIssueState`'s `try` (line 450), and
the catch at lines 522-531 converts it — it is not a `RequestException` —
into the returned envelope
`errorResponse('Analysis Error: Maintainer verification failed.
Processing aborted.')`, so the run continues.  This theorem evaluates the
embedded code at the failing input. -/
theorem C4_maintainer_failure_caught :
    getCachedMaintainers none (Except.error "request failed") =
      Except.error (JsException.jsError
        "Maintainer verification failed. Processing aborted.") ∧
    getIssueState wStng
      (getCachedMaintainers none (Except.error "request failed"))
      (Except.ok wRaw) 0 =
      ToolResult.failure (errorResponse
        "Analysis Error: Maintainer verification failed. Processing aborted.")
      ∧
    (errorResponse
      "Analysis Error: Maintainer verification failed. Processing aborted."
      ).status = "error" := by
  refine ⟨rfl, ?_, rfl⟩
  rfl

/-- C5: Every built history contains the baseline `created` event anchored
at the issue's creation instant (hence is non-empty), has non-decreasing
instants, and is exactly a stable ascending sort of the push-ordered
event list (a permutation of it in which, at every instant, events keep
their push order — `created`, then comments, then edits, then timeline
items — with no event special-cased or dropped). -/
theorem C5_builder_sorted_nonempty (stng : Settings) (raw : RawIssue) :
    createdEvent raw ∈ (buildHistoryTimeline stng raw).1 ∧
    (buildHistoryTimeline stng raw).1 ≠ [] ∧
    ((buildHistoryTimeline stng raw).1.Pairwise
      (fun a b => a.time ≤ b.time)) ∧
    List.Perm (buildHistoryTimeline stng raw).1 (ingestionEvents stng raw) ∧
    (∀ t, (buildHistoryTimeline stng raw).1.filter
        (fun x => x.time == t) =
      (ingestionEvents stng raw).filter (fun x => x.time == t)) := by
  have hdef : (buildHistoryTimeline stng raw).1 =
      sortEvents (ingestionEvents stng raw) := rfl
  refine ⟨?_, ?_, ?_, ?_, ?_⟩
  · rw [hdef]
    exact mem_sortEvents.mpr (by simp [ingestionEvents])
  · rw [hdef]
    intro hnil
    have hlen := (sortEvents_perm (ingestionEvents stng raw)).length_eq
    rw [hnil] at hlen
    simp [ingestionEvents] at hlen
  · rw [hdef]
    exact sortEvents_pairwise _
  · rw [hdef]
    exact sortEvents_perm _
  · intro t
    rw [hdef]
    exact sortEvents_filter t _

/-- C6: For every event of a built history, with the issue author as
`getIssueState` computes it (`rawData.author?.login ?? 'unknown'`), the
replay's role determination is total and the three roles are mutually
exclusive: `author` exactly when the actor equals the issue author,
`maintainer` exactly when the actor is a distinct member of the
maintainer set, and `other_user` exactly in every remaining case (absent
actors included). -/
theorem C6_role_classification (stng : Settings) (raw : RawIssue)
    (maintainers : List Identity) (issueAuthor : Identity)
    (e : HistoryEvent)
    (hauthor : issueAuthor = raw.author.getD "unknown")
    (he : e ∈ (buildHistoryTimeline stng raw).1) :
    (classifyRole maintainers issueAuthor e.actor = Role.author ∨
      classifyRole maintainers issueAuthor e.actor = Role.maintainer ∨
      classifyRole maintainers issueAuthor e.actor = Role.other_user) ∧
    (classifyRole maintainers issueAuthor e.actor = Role.author ↔
      e.actor = some issueAuthor) ∧
    (classifyRole maintainers issueAuthor e.actor = Role.maintainer ↔
      ∃ a, e.actor = some a ∧ a ≠ issueAuthor ∧ a ∈ maintainers) ∧
    (classifyRole maintainers issueAuthor e.actor = Role.other_user ↔
      (e.actor = none ∨
        ∃ a, e.actor = some a ∧ a ≠ issueAuthor ∧ a ∉ maintainers)) := by
  have hne : ∀ a, e.actor = some a → a ≠ issueAuthor → a ≠ "" := by
    intro a ha hia
    by_cases hk : e.type = EventKind.created
    · have hc := history_created_unique stng raw e he hk
      rw [hc] at ha
      have hra : raw.author = some a := ha
      rw [hra] at hauthor
      exact absurd hauthor.symm hia
    · have hact := history_actor_admitted stng raw e he hk
      rcases actorAllowed_spec e.actor hact with ⟨s, hs, hs1, _, _⟩
      rw [ha] at hs
      have := Option.some.inj hs
      subst this
      exact hs1
  refine ⟨?_, ?_, ?_, ?_⟩
  · cases classifyRole maintainers issueAuthor e.actor <;> simp
  · cases hactor : e.actor with
    | none => simp [classifyRole]
    | some a =>
      by_cases hia : a = issueAuthor
      · subst hia
        simp [classifyRole]
      · have hnea := hne a hactor hia
        by_cases hm : a ∈ maintainers <;>
          simp [classifyRole, hia, hnea, hm]
  · cases hactor : e.actor with
    | none => simp [classifyRole]
    | some a =>
      by_cases hia : a = issueAuthor
      · subst hia
        simp [classifyRole]
      · have hnea := hne a hactor hia
        by_cases hm : a ∈ maintainers <;>
          simp [classifyRole, hia, hnea, hm]
  · cases hactor : e.actor with
    | none => simp [classifyRole]
    | some a =>
      by_cases hia : a = issueAuthor
      · subst hia
        simp [classifyRole]
      · have hnea := hne a hactor hia
        by_cases hm : a ∈ maintainers <;>
          simp [classifyRole, hia, hnea, hm]

theorem C6_role_classification_witness :
    (classifyRole ["carol"] "alice" (commentEvent wComment).actor =
        Role.author ∨
      classifyRole ["carol"] "alice" (commentEvent wComment).actor =
        Role.maintainer ∨
      classifyRole ["carol"] "alice" (commentEvent wComment).actor =
        Role.other_user) ∧
    (classifyRole ["carol"] "alice" (commentEvent wComment).actor =
        Role.author ↔ (commentEvent wComment).actor = some "alice") ∧
    (classifyRole ["carol"] "alice" (commentEvent wComment).actor =
        Role.maintainer ↔
      ∃ a, (commentEvent wComment).actor = some a ∧ a ≠ "alice" ∧
        a ∈ ["carol"]) ∧
    (classifyRole ["carol"] "alice" (commentEvent wComment).actor =
        Role.other_user ↔
      ((commentEvent wComment).actor = none ∨
        ∃ a, (commentEvent wComment).actor = some a ∧ a ≠ "alice" ∧
          a ∉ ["carol"])) :=
  C6_role_classification wStng wRaw ["carol"] "alice"
    (commentEvent wComment) (by decide) (by decide)

/-- C7 counterexample: a comment whose actor is the present identity `""`
satisfies every condition of the claim — present actor, no `[bot]`
suffix, not the automation's identity, signature-free body — yet the
builder emits no `commented` event at all for the issue holding it: the
JS admission test `actor && ...` is falsy on the empty string, so the
comment is dropped. -/
theorem C7_counterexample :
    cEmptyActor.author = some "" ∧
    strEndsWith "" "[bot]" = false ∧
    ("" : String) ≠ BOT_NAME ∧
    containsSignature (cEmptyActor.body.getD "") = false ∧
    some cEmptyActor ∈ rawEmptyActor.comments ∧
    ¬ ∃ e ∈ (buildHistoryTimeline wStng rawEmptyActor).1,
        e.type = EventKind.commented := by
  decide

/-- C7 (amended): for every comment record with a present, non-empty
actor that neither ends with `[bot]` nor is the automation's identity,
and a body not containing the bot-alert signature, the builder emits a
`commented` event whose timestamp is the comment's last-edited time when
that field is present, and the comment's creation time otherwise. -/
theorem C7_comment_event_emitted (stng : Settings) (raw : RawIssue)
    (c : RawComment) (a : Identity)
    (hmem : some c ∈ raw.comments)
    (hauthor : c.author = some a)
    (hnempty : a ≠ "")
    (hsuffix : strEndsWith a "[bot]" = false)
    (hself : a ≠ BOT_NAME)
    (hsig : containsSignature (c.body.getD "") = false) :
    commentEvent c ∈ (buildHistoryTimeline stng raw).1 ∧
    (commentEvent c).type = EventKind.commented ∧
    (commentEvent c).actor = c.author ∧
    (∀ t, c.lastEditedAt = some t → (commentEvent c).time = t) ∧
    (c.lastEditedAt = none → (commentEvent c).time = c.createdAt) := by
  have hact : actorAllowed c.author = true := by
    rw [hauthor]
    simp [actorAllowed, hsuffix, hnempty, hself]
  refine ⟨?_, rfl, rfl, ?_, ?_⟩
  · have hdef : (buildHistoryTimeline stng raw).1 =
        sortEvents (ingestionEvents stng raw) := rfl
    rw [hdef]
    apply mem_sortEvents.mpr
    apply (mem_ingestionEvents stng raw (commentEvent c)).mpr
    exact Or.inr (Or.inl
      ((processComments_fst_mem raw.comments none
        (commentEvent c)).mpr ⟨c, hmem, hsig, hact, rfl⟩))
  · intro t ht
    simp [commentEvent, ht]
  · intro ht
    simp [commentEvent, ht]

theorem C7_comment_event_emitted_witness :
    commentEvent wComment ∈ (buildHistoryTimeline wStng wRaw).1 ∧
    (commentEvent wComment).type = EventKind.commented ∧
    (commentEvent wComment).actor = wComment.author ∧
    (∀ t, wComment.lastEditedAt = some t →
      (commentEvent wComment).time = t) ∧
    (wComment.lastEditedAt = none →
      (commentEvent wComment).time = wComment.createdAt) :=
  C7_comment_event_emitted wStng wRaw wComment "bob" (by decide)
    (by decide) (by decide) (by decide) (by decide) (by decide)

/-- C8: The verdict's `days_since_stale_label` is `(now − max
labelEvents)` in fractional days exactly when the stale label is present
and at least one application instant was captured, and is exactly `0` in
every other case, including a present stale label with no captured
application instant. -/
theorem C8_stale_label_age (stng : Settings) (state : IssueState)
    (labelEvents : List Int) (lastBotAlertTime : Option Int)
    (labelsList : List String) (maintainers : List Identity)
    (issueAuthor : Identity) (now : Int) :
    ((evaluateState stng state labelEvents lastBotAlertTime labelsList
        maintainers issueAuthor now).is_stale = true ↔
      stng.staleLabelName ∈ labelsList) ∧
    (∀ m, maxTime labelEvents = some m →
      (evaluateState stng state labelEvents lastBotAlertTime labelsList
          maintainers issueAuthor now).is_stale = true →
      (evaluateState stng state labelEvents lastBotAlertTime labelsList
          maintainers issueAuthor now).days_since_stale_label =
          daysBetween now m ∧
        m ∈ labelEvents ∧ ∀ t ∈ labelEvents, t ≤ m) ∧
    ((evaluateState stng state labelEvents lastBotAlertTime labelsList
        maintainers issueAuthor now).is_stale = false →
      (evaluateState stng state labelEvents lastBotAlertTime labelsList
          maintainers issueAuthor now).days_since_stale_label = 0) ∧
    (labelEvents = [] →
      (evaluateState stng state labelEvents lastBotAlertTime labelsList
          maintainers issueAuthor now).days_since_stale_label = 0) := by
  have hstale :
      (evaluateState stng state labelEvents lastBotAlertTime labelsList
        maintainers issueAuthor now).is_stale =
        decide (stng.staleLabelName ∈ labelsList) := rfl
  have hage :
      (evaluateState stng state labelEvents lastBotAlertTime labelsList
        maintainers issueAuthor now).days_since_stale_label =
        match maxTime labelEvents with
        | some m =>
          if decide (stng.staleLabelName ∈ labelsList) = true then
            daysBetween now m
          else 0
        | none => 0 := rfl
  refine ⟨?_, ?_, ?_, ?_⟩
  · rw [hstale]
    exact decide_eq_true_iff
  · intro m hm hst
    rw [hstale] at hst
    rcases maxTime_spec labelEvents m hm with ⟨hmm, hdom⟩
    refine ⟨?_, hmm, hdom⟩
    rw [hage, hm]
    show (if decide (stng.staleLabelName ∈ labelsList) = true then
      daysBetween now m else 0) = daysBetween now m
    rw [if_pos hst]
  · intro hst
    rw [hstale] at hst
    rw [hage]
    cases hmx : maxTime labelEvents with
    | none => rfl
    | some m => simp [hst]
  · intro h
    subst h
    rw [hage]
    rfl

theorem C8_stale_label_age_witness :
    ((evaluateState wStng
        (replayHistoryToFindState [] ["carol"] "alice") [3, 9, 6] none
        ["stale"] ["carol"] "alice" 10).is_stale = true ↔
      wStng.staleLabelName ∈ ["stale"]) ∧
    (∀ m, maxTime [3, 9, 6] = some m →
      (evaluateState wStng
          (replayHistoryToFindState [] ["carol"] "alice") [3, 9, 6] none
          ["stale"] ["carol"] "alice" 10).is_stale = true →
      (evaluateState wStng
          (replayHistoryToFindState [] ["carol"] "alice") [3, 9, 6] none
          ["stale"] ["carol"] "alice" 10).days_since_stale_label =
          daysBetween 10 m ∧
        m ∈ [3, 9, 6] ∧ ∀ t ∈ [3, 9, 6], t ≤ m) ∧
    ((evaluateState wStng
        (replayHistoryToFindState [] ["carol"] "alice") [3, 9, 6] none
        ["stale"] ["carol"] "alice" 10).is_stale = false →
      (evaluateState wStng
          (replayHistoryToFindState [] ["carol"] "alice") [3, 9, 6] none
          ["stale"] ["carol"] "alice" 10).days_since_stale_label = 0) ∧
    (([3, 9, 6] : List Int) = [] →
      (evaluateState wStng
          (replayHistoryToFindState [] ["carol"] "alice") [3, 9, 6] none
          ["stale"] ["carol"] "alice" 10).days_since_stale_label = 0) :=
  C8_stale_label_age wStng (replayHistoryToFindState [] ["carol"] "alice")
    [3, 9, 6] none ["stale"] ["carol"] "alice" 10

/-- C9: With the maintainer set available, `getIssueState` always returns
(never throws): every per-issue failure — `RequestException` for a
missing issue or a GraphQL error, any other exception for transport or
unexpected errors — is converted by the catch into the returned envelope
`{status := "error", message := "Network Error: ..." / "Analysis Error:
..."}`, and a successful fetch yields a success verdict. -/
theorem C9_per_issue_errors_returned (stng : Settings)
    (maintainers : List Identity)
    (fetchResult : Except JsException RawIssue) (now : Int) :
    (∀ e, fetchResult = Except.error e →
      getIssueState stng (Except.ok maintainers) fetchResult now =
        ToolResult.failure (catchClause e) ∧
      (catchClause e).status = "error" ∧
      (∀ m, e = JsException.requestException m →
        (catchClause e).message = "Network Error: " ++ m) ∧
      (∀ m, e = JsException.jsError m →
        (catchClause e).message = "Analysis Error: " ++ m)) ∧
    (∀ raw, fetchResult = Except.ok raw →
      ∃ v, getIssueState stng (Except.ok maintainers) fetchResult now =
        ToolResult.success v) := by
  constructor
  · rintro e rfl
    refine ⟨rfl, ?_, ?_, ?_⟩
    · cases e <;> rfl
    · rintro m rfl
      rfl
    · rintro m rfl
      rfl
  · rintro raw rfl
    exact ⟨_, rfl⟩

/-- C10: In every built history, each event other than the baseline
`created` event (of which there is exactly one) has a present actor that
is neither the automation's own identity nor a "[bot]"-suffixed name;
only the `created` event can carry an absent actor. -/
theorem C10_history_actor_nonbot (stng : Settings) (raw : RawIssue) :
    (∀ e ∈ (buildHistoryTimeline stng raw).1,
      e.type ≠ EventKind.created →
      ∃ s, e.actor = some s ∧ s ≠ BOT_NAME ∧
        strEndsWith s "[bot]" = false) ∧
    (∀ e ∈ (buildHistoryTimeline stng raw).1, e.actor = none →
      e.type = EventKind.created) ∧
    ((buildHistoryTimeline stng raw).1.countP
      (fun e => decide (e.type = EventKind.created))) = 1 := by
  refine ⟨?_, ?_, ?_⟩
  · intro e he hk
    rcases actorAllowed_spec e.actor
        (history_actor_admitted stng raw e he hk) with ⟨s, hs, _, h2, h3⟩
    exact ⟨s, hs, h3, h2⟩
  · intro e he hact
    by_contra hk
    rcases actorAllowed_spec e.actor
        (history_actor_admitted stng raw e he hk) with ⟨s, hs, _, _⟩
    rw [hact] at hs
    exact Option.noConfusion hs
  · have hdef : (buildHistoryTimeline stng raw).1 =
        sortEvents (ingestionEvents stng raw) := rfl
    rw [hdef, (sortEvents_perm (ingestionEvents stng raw)).countP_eq]
    have hrest : ((processComments raw.comments none).1 ++
        editEvents raw.userContentEdits ++
        (processTimeline stng raw.timelineItems).1).countP
          (fun e => decide (e.type = EventKind.created)) = 0 := by
      apply List.countP_eq_zero.mpr
      intro e he
      simp only [decide_eq_true_eq]
      intro hk
      rcases List.mem_append.mp he with he | he
      · rcases List.mem_append.mp he with he | he
        · rcases (processComments_fst_mem raw.comments none e).mp he
            with ⟨c, _, _, _, hc⟩
          rw [hc] at hk
          exact EventKind.noConfusion hk
        · rcases editEvents_mem raw.userContentEdits e he with ⟨hke, _, _⟩
          rw [hke] at hk
          exact EventKind.noConfusion hk
      · rcases processTimeline_fst_mem stng raw.timelineItems e he with
          ⟨hke, _, _⟩
        rcases hke with hke | hke <;> rw [hke] at hk <;>
          exact EventKind.noConfusion hk
    rw [ingestionEvents, List.countP_cons]
    rw [hrest]
    simp [createdEvent]
